import Mathlib

/-
  Shallow embedding of the change-recording core of the pijul-betree-dag
  repository (src/libpijul/src/record.rs and src/libpijul/src/diff/mod.rs).

  Byte slices are modelled as lists of naturals, raw pointers as natural
  addresses (base address of the owning buffer plus offset), machine
  integers as Nat, and fallible paths (slice indexing that can panic,
  unreachable branches) as Option results.  External collaborators that
  are not part of the two source files (the transaction store, the change
  store, the line splitter of the buffer projector, the FileMetadata
  serializer) are modelled as explicit function parameters, following the
  contracts stated in the specification.
-/

namespace Pijul

/- =====================  diff/mod.rs : the line model  ===================== -/

/-- Line, from diff/mod.rs: a view over a byte slice with the `cyclic`,
`before_end_marker` and `last` bits and the raw slice pointer (modelled as a
natural address). -/
structure Line where
  l : List Nat
  cyclic : Bool
  before_end_marker : Bool
  last : Bool
  ptr : Nat
  deriving DecidableEq, Repr

/-- Condition of the first early-return branch of `impl PartialEq for Line`:
`self.before_end_marker && !b.last && b.l.last() == Some(&b'\n')`. -/
def bridgeCond (a b : Line) : Bool :=
  a.before_end_marker && !b.last && decide (b.l.getLast? = some 10)

/-- Translation of `impl PartialEq for Line` (diff/mod.rs lines 43-54).
The two early returns compare bytes with the trailing newline of the
non-marker side removed; the fall-through case compares pointers-and-length
or bytes, and additionally the `cyclic` bit. -/
def lineEq (a b : Line) : Bool :=
  if bridgeCond a b then decide (b.l.dropLast = a.l)
  else if bridgeCond b a then decide (a.l.dropLast = b.l)
  else ((decide (a.ptr = b.ptr) && decide (a.l.length = b.l.length)) || decide (a.l = b.l))
    && decide (a.cyclic = b.cyclic)

/-- Conflict marker kinds of the buffer projector (spec section 4.2: Begin,
End, SideSep). Only `End` is consulted by `make_old_lines`. -/
inductive ConflictMarker where
  | Begin
  | SideSep
  | End
  deriving DecidableEq, Repr

/-- Value of `std::usize::MAX` used as the probe in the binary search of
`make_old_lines`. -/
def usizeMax : Nat := 18446744073709551615

/-- Lexicographic strict order on pairs, the order `binary_search` uses on
`(usize, usize)`. -/
def lexLt (p q : Nat × Nat) : Bool :=
  decide (p.1 < q.1) || (decide (p.1 = q.1) && decide (p.2 < q.2))

/-- Translation of the cyclic-bit computation of `make_old_lines`:
`cyclic_conflict_bytes.binary_search(&(old_bytes, usize::MAX))` followed by a
point-in-range test against the predecessor entry.  On an exact hit
(`Ok(_)`) the bit is false.  On `Err(n)`, `n` is the insertion point, which
for the sorted list the search assumes equals the number of entries below
the probe. -/
def cyclicAt (ranges : List (Nat × Nat)) (off : Nat) : Bool :=
  if ranges.contains (off, usizeMax) then false
  else
    let n := ranges.countP (fun p => lexLt p (off, usizeMax))
    decide (0 < n) &&
      (match ranges.get? (n - 1) with
       | some r => decide (r.1 ≤ off) && decide (off < r.2)
       | none => false)

/-- Inputs of `make_old_lines`: the projected buffer `contents_a`, its base
address, the sorted cyclic-conflict byte ranges, and the marker map from
byte offsets to conflict-marker kinds. -/
structure OldCtx where
  contents_a : List Nat
  base : Nat
  cyclicRanges : List (Nat × Nat)
  marker : List (Nat × ConflictMarker)
  deriving Repr

/-- Byte slice `buf[off .. off+len]`. -/
def sliceAt (buf : List Nat) (off len : Nat) : List Nat :=
  (buf.drop off).take len

/-- Translation of the body of `make_old_lines` (diff/mod.rs lines 73-105)
for one line of the external splitter `d.lines()`, given as its
(offset, length) span.  `old_bytes = l.as_ptr() - contents_a.as_ptr()` is the
offset; `before_end_marker` looks up `offset + len + 1` in the marker map
when the line does not end with a newline; `last` tests
`offset + len >= contents_a.len()`. -/
def makeOldLine (d : OldCtx) (sp : Nat × Nat) : Line :=
  let l := sliceAt d.contents_a sp.1 sp.2
  { l := l
    cyclic := cyclicAt d.cyclicRanges sp.1
    before_end_marker :=
      if l.getLast? ≠ some 10 then
        decide (d.marker.lookup (sp.1 + sp.2 + 1) = some ConflictMarker.End)
      else false
    last := decide (d.contents_a.length ≤ sp.1 + sp.2)
    ptr := d.base + sp.1 }

/-- Old lines built from the spans produced by the external line splitter.
The splitter itself is out of scope per the specification (section 1). -/
def makeOldLines (d : OldCtx) (spans : List (Nat × Nat)) : List Line :=
  spans.map (makeOldLine d)

/-- Translation of `make_new_lines` (diff/mod.rs lines 107-121) for one span
of the working-copy buffer `b` at base address `base`: `cyclic` and
`before_end_marker` are always false, `last` tests
`offset + len >= b.len()`. -/
def makeNewLine (b : List Nat) (base : Nat) (sp : Nat × Nat) : Line :=
  { l := sliceAt b sp.1 sp.2
    cyclic := false
    before_end_marker := false
    last := decide (b.length ≤ sp.1 + sp.2)
    ptr := base + sp.1 }

/-- New lines built from the spans of the external `LineSplit` splitter. -/
def makeNewLines (b : List Nat) (base : Nat) (spans : List (Nat × Nat)) : List Line :=
  spans.map (makeNewLine b base)

/-- All lines drawn from the old (projected) and new (working copy) buffers,
as the diff driver builds them. -/
def drawnLines (d : OldCtx) (spans : List (Nat × Nat)) (b : List Nat) (nbase : Nat)
    (nspans : List (Nat × Nat)) : List Line :=
  makeOldLines d spans ++ makeNewLines b nbase nspans

/-- Claim C3's reading of line equality, translated from the specification's
words for the refinement comparison: the cyclic bits match in every case, and
either (a) the bytes compare equal, or (b) the pointers are identical and the
lengths match, or (c) one side has `before_end_marker` set, the other side's
bytes end with a newline, the marker side is one byte shorter and the bytes
otherwise match. -/
def lineEqSpecClaim (a b : Line) : Prop :=
  a.cyclic = b.cyclic ∧
    (a.l = b.l ∨
      (a.ptr = b.ptr ∧ a.l.length = b.l.length) ∨
      (a.before_end_marker = true ∧ b.l.getLast? = some 10 ∧ b.l.dropLast = a.l) ∨
      (b.before_end_marker = true ∧ a.l.getLast? = some 10 ∧ a.l.dropLast = b.l))

/-- Translation of `bytes_len` (diff/mod.rs lines 205-214).  Rust slice
indexing that would panic is modelled as `none`. -/
def bytesLen (chunks : List Line) (old len : Nat) : Option Nat :=
  match chunks.get? (old + len) with
  | some p =>
    match chunks.get? old with
    | some q => some (p.ptr - q.ptr)
    | none => none
  | none =>
    if 0 < old + len then
      match chunks.get? (old + len - 1), chunks.get? old with
      | some p, some q => some (p.ptr + p.l.length - q.ptr)
      | _, _ => none
    else
      match chunks.get? (old + len), chunks.get? old with
      | some p, some q => some (p.ptr - q.ptr)
      | _, _ => none

/- =====================  record.rs : the data model  ===================== -/

/-- Edge flag bitset (BLOCK, FOLDER, PARENT, DELETED, PSEUDO), per the
specification's data model. -/
structure EdgeFlags where
  block : Bool
  folder : Bool
  parent : Bool
  deleted : Bool
  pseudo : Bool
  deriving DecidableEq, Repr

/-- Bitset inclusion: every flag of `f` is present in `g`. -/
def EdgeFlags.le (f g : EdgeFlags) : Bool :=
  (!f.block || g.block) && (!f.folder || g.folder) && (!f.parent || g.parent)
    && (!f.deleted || g.deleted) && (!f.pseudo || g.pseudo)

/-- Rust `f.contains(g)`: `f` includes every flag of `g`. -/
def EdgeFlags.containsF (f g : EdgeFlags) : Bool :=
  EdgeFlags.le g f

/-- Rust `f - EdgeFlags::PARENT`. -/
def EdgeFlags.minusParent (f : EdgeFlags) : EdgeFlags :=
  { f with parent := false }

/-- Rust `f | EdgeFlags::DELETED`. -/
def EdgeFlags.withDeleted (f : EdgeFlags) : EdgeFlags :=
  { f with deleted := true }

/-- EdgeFlags::empty(). -/
def emptyF : EdgeFlags := ⟨false, false, false, false, false⟩

/-- EdgeFlags::all(). -/
def allF : EdgeFlags := ⟨true, true, true, true, true⟩

/-- FOLDER | PARENT. -/
def folderParentF : EdgeFlags := ⟨false, true, true, false, false⟩

/-- FOLDER | BLOCK. -/
def folderBlockF : EdgeFlags := ⟨true, true, false, false, false⟩

/-- FOLDER | BLOCK | DELETED. -/
def folderBlockDeletedF : EdgeFlags := ⟨true, true, false, true, false⟩

/-- PARENT alone. -/
def parentOnlyF : EdgeFlags := ⟨false, false, true, false, false⟩

/-- EdgeFlags::all() - DELETED. -/
def allMinusDeletedF : EdgeFlags := ⟨true, true, true, false, true⟩

/-- Position over a concrete change id (`Position<ChangeId>`). -/
structure CPos where
  change : Nat
  pos : Nat
  deriving DecidableEq, Repr

/-- Position over an optional change id (`Position<Option<ChangeId>>`),
`None` meaning "this change". -/
structure Pos where
  change : Option Nat
  pos : Nat
  deriving DecidableEq, Repr

/-- Vertex over a concrete change id. -/
structure Vertex where
  change : Nat
  vstart : Nat
  vend : Nat
  deriving DecidableEq, Repr

/-- Vertex over an optional change id. -/
structure OVertex where
  change : Option Nat
  vstart : Nat
  vend : Nat
  deriving DecidableEq, Repr

/-- Position::to_option. -/
def CPos.toOption (p : CPos) : Pos := ⟨some p.change, p.pos⟩

/-- Position::inode_vertex: the dimensionless vertex at this position. -/
def CPos.inodeVertex (p : CPos) : Vertex := ⟨p.change, p.pos, p.pos⟩

/-- Vertex::to_option. -/
def Vertex.toOption (v : Vertex) : OVertex := ⟨some v.change, v.vstart, v.vend⟩

/-- Vertex::start_pos. -/
def Vertex.startPos (v : Vertex) : CPos := ⟨v.change, v.vstart⟩

/-- A graph edge as yielded by `iter_adjacent`: its flags, destination
position and introducing change. -/
structure Edge where
  flag : EdgeFlags
  dest : CPos
  introducedBy : Nat
  deriving DecidableEq, Repr

/-- NewEdge of the change vocabulary: a single flag transition.  `from_` is a
position, `to_` a vertex, `introducedBy` the change that created the edge. -/
structure NewEdge where
  previous : EdgeFlags
  flag : EdgeFlags
  from_ : Pos
  to_ : OVertex
  introducedBy : Option Nat
  deriving DecidableEq, Repr

/-- NewVertex of the change vocabulary. -/
structure NewVertex where
  up_context : List Pos
  down_context : List Pos
  vstart : Nat
  vend : Nat
  flag : EdgeFlags
  inode : Pos
  deriving DecidableEq, Repr

/-- EdgeMap: a bag of NewEdges sharing one inode. -/
structure EdgeMap where
  edges : List NewEdge
  inode : Pos
  deriving DecidableEq, Repr

/-- Atom: either a NewVertex or an EdgeMap. -/
inductive Atom where
  | newVertex (v : NewVertex)
  | edgeMap (m : EdgeMap)
  deriving DecidableEq, Repr

/-- The Hunk variants constructed by record.rs. -/
inductive Hunk where
  | fileAdd (add_name : Atom) (add_inode : Atom) (contents : Option Atom)
      (path : String) (encoding : Option Nat)
  | fileDel (del : Atom) (contents : Option Atom) (path : String) (encoding : Option Nat)
  | fileUndel (undel : Atom) (contents : Option Atom) (path : String) (encoding : Option Nat)
  | fileMove (del : Atom) (add : Atom) (path : String)
  | solveNameConflict (name : Atom) (path : String)
  deriving DecidableEq, Repr

/-- InodeUpdate, as recorded in the `updatables` map. -/
inductive InodeUpdate where
  | add (pos : Nat) (inode : Nat)
  | deleted (inode : Nat)
  deriving DecidableEq, Repr

/-- InodeMetadata: directory bit and permissions. -/
structure InodeMetadata where
  isDir : Bool
  perms : Nat
  deriving DecidableEq, Repr

/-- The fields of RecordItem consulted by the embedded operations. -/
structure RecordItem where
  v_papa : Pos
  inode : Nat
  basename : String
  full_path : String
  metadata : InodeMetadata
  deriving DecidableEq, Repr

/-- The output record being built (struct Recorded): the shared contents
buffer, the actions list, the updatables map (modelled as the association
list of inserted key-value pairs, in insertion order), the counters, and the
redundant-edge list (entries left opaque). -/
structure Recorded where
  contents : List Nat
  actions : List Hunk
  updatables : List (Nat × InodeUpdate)
  largest_file : Nat
  has_binary_files : Bool
  oldest_change : Nat
  redundant : List Nat
  deriving DecidableEq, Repr

/-- A freshly created record (Builder::recorded_, with the oldest change at
the UNIX epoch, modelled as 0). -/
def emptyRecorded : Recorded :=
  ⟨[], [], [], 0, false, 0, []⟩

/-- Hunk recognizers used to state the dispatch properties. -/
def isFileAddB : Hunk → Bool
  | .fileAdd _ _ _ _ _ => true
  | _ => false

/-- True exactly on FileUndel hunks. -/
def isFileUndelB : Hunk → Bool
  | .fileUndel _ _ _ _ => true
  | _ => false

/-- True exactly on FileMove hunks. -/
def isFileMoveB : Hunk → Bool
  | .fileMove _ _ _ => true
  | _ => false

/-- True exactly on SolveNameConflict hunks. -/
def isSolveB : Hunk → Bool
  | .solveNameConflict _ _ => true
  | _ => false

/- =====================  record.rs : Builder::finish  ===================== -/

/-- One step of Builder::finish (record.rs lines 158-178): append the next
worker record to the accumulated result, rebasing its updatables keys by the
current actions length, merging the counters, and concatenating the
redundant edges. -/
def finishStep (r rec : Recorded) : Recorded :=
  { contents := r.contents
    actions := r.actions ++ rec.actions
    updatables := r.updatables ++ rec.updatables.map (fun p => (p.1 + r.actions.length, p.2))
    largest_file := max r.largest_file rec.largest_file
    has_binary_files := r.has_binary_files || rec.has_binary_files
    oldest_change :=
      if r.oldest_change = 0 ∨ (0 < rec.oldest_change ∧ rec.oldest_change < r.oldest_change)
      then rec.oldest_change else r.oldest_change
    redundant := r.redundant ++ rec.redundant }

/-- Builder::finish (record.rs lines 148-184): if no record exists an empty
one is created; the remaining records fold into the first. -/
def finish : List Recorded → Recorded
  | [] => emptyRecorded
  | r :: rest => rest.foldl finishStep r

/-- Updatables of a record sequence rebased by cumulative action counts, the
closed form the finalization is claimed to compute. -/
def shiftedUpdatables : Nat → List Recorded → List (Nat × InodeUpdate)
  | _, [] => []
  | off, r :: rest =>
      r.updatables.map (fun p => (p.1 + off, p.2)) ++
        shiftedUpdatables (off + r.actions.length) rest

/-- Minimum over the nonzero (non-epoch) values of a list, 0 when all are
zero: the claimed merge of `oldest_change`. -/
def minNonzero : List Nat → Nat
  | [] => 0
  | x :: l =>
      if x = 0 then minNonzero l
      else if minNonzero l = 0 then x
      else min x (minNonzero l)

/-- The merge operation `oldest_change` uses, factored out for the proofs. -/
def oldMerge (a x : Nat) : Nat :=
  if a = 0 ∨ (0 < x ∧ x < a) then x else a

/- ============  record.rs : modified_since_last_commit (C9)  ============ -/

/-- Translation of `modified_since_last_commit` (record.rs lines 623-644).
The working copy's `modified_time` result is modelled as an optional integer
of seconds relative to the UNIX epoch (`none` when the call fails);
`duration_since(UNIX_EPOCH)?` fails exactly when the time precedes the
epoch, and the `?` propagates that failure as an error.  `channelLast` is
`txn.last_modified(channel)`.  The `debug!` line's own `duration_since` call
is only evaluated when logging is enabled and is not modelled. -/
def modifiedSinceLastCommit (mtime : Option Int) (channelLast : Nat) : Except Unit Bool :=
  match mtime with
  | none => Except.ok true
  | some t =>
    if t < 0 then Except.error ()
    else Except.ok (decide (channelLast ≤ t.toNat))

/- ==============  record.rs : Builder::record scheduling (C10)  ============== -/

/-- Rust range `a..b` as a list (empty when `b ≤ a`). -/
def rustRange (a b : Nat) : List Nat :=
  (List.range (b - a)).map (fun k => a + k)

/-- The workers spawned by Builder::record (record.rs line 302): the loop
header is the literal `for t in 0..0`, so the `_n_workers` parameter is
never consulted. -/
def spawnedWorkers (_n_workers : Nat) : List Nat :=
  rustRange 0 0

/-- The tree walk pushes each work tuple to the back of the queue
(`work.t.push_back`, record.rs line 390). -/
def pushAll (tasks : List α) : List α :=
  tasks.foldl (fun q t => q ++ [t]) []

/-- The drain loop after the walk pops from the front until the queue is
empty (`work.t.pop_front`, record.rs lines 433-455), processing each tuple
on the calling thread. -/
def drainOrder : List α → List α
  | [] => []
  | t :: q => t :: drainOrder q

/-- The processing order of Builder::record as a function of the queued work
tuples: spawn the (empty) worker list, push every tuple during the walk,
drain front-first afterwards. -/
def recordProcessModel (n_workers : Nat) (tasks : List α) : List α :=
  let _workers := spawnedWorkers n_workers
  drainOrder (pushAll tasks)

/- =====================  record.rs : the graph interface  ===================== -/

/-- Abstract view of the transaction and change store, restricted to the
operations the embedded functions use.  Modelled from the spec: `adj` is the
adjacency underlying `iter_adjacent`; `blockEnd` is `find_block_end` (the
unwrap never fails on well-formed graphs and is modelled total); `fileMeta`
is `get_file_meta` of the change store composed with `get_external`,
returning the metadata, basename and encoding stored on a name vertex. -/
structure Graph where
  adj : Vertex → List Edge
  blockEnd : CPos → Vertex
  fileMeta : Vertex → InodeMetadata × String × Option Nat

/-- Modelled from the spec: `iter_adjacent(graph, vertex, required_flags,
forbidden_flags_mask)` yields every edge whose flags include the required
set and are included in the mask. -/
def iterAdjacent (g : Graph) (v : Vertex) (req mask : EdgeFlags) : List Edge :=
  (g.adj v).filter (fun e => EdgeFlags.le req e.flag && EdgeFlags.le e.flag mask)

/-- Rust `cfg!(windows)`: the embedding targets the unix configuration. -/
def cfgWindows : Bool := false

/-- Rust `cfg!(unix)`. -/
def cfgUnix : Bool := true

/- ==============  record.rs : collect_moved_edges (C6, C8)  ============== -/

/-- A former parent of a file, as gathered by record_existing_file. -/
structure Parent where
  basename : String
  metadata : InodeMetadata
  encoding : Option Nat
  parent : Pos
  deriving DecidableEq, Repr

/-- The result of collect_moved_edges. -/
structure MovedEdges where
  edges : List NewEdge
  alive : List NewEdge
  resurrect : List NewEdge
  need_new_name : Bool
  deriving DecidableEq, Repr

/-- The mutable state of collect_moved_edges: the MovedEdges being built,
the `del_del` and `alive` hash maps (modelled as association lists in first
insertion order; the properties proved below do not depend on iteration
order), `last_alive_meta` and `is_first_parent`. -/
structure CMEState where
  moved : MovedEdges
  del_del : List ((CPos × Vertex) × List (Option Nat))
  aliveM : List ((CPos × Vertex) × List (Option Nat))
  lastAliveMeta : Option InodeMetadata
  isFirstParent : Bool

/-- Rust `map.entry(k).or_insert_with(Vec::new).push(v)` on the association
list model. -/
def pushEntry {κ ν : Type} [DecidableEq κ] :
    List (κ × List ν) → κ → ν → List (κ × List ν)
  | [], k, v => [(k, [v])]
  | (k', vs) :: rest, k, v =>
      if k' = k then (k', vs ++ [v]) :: rest else (k', vs) :: pushEntry rest k v

/-- Body of the grandparent loop of collect_moved_edges (record.rs lines
1080-1170) for one grandparent edge.  The `find_block_end` of the
grandparent destination is only used by an assertion and debug output and is
not modelled; the assertions themselves are omitted. -/
def cmeGrandA (parent_pos : Pos) (current_pos : CPos) (parentEdge : Edge)
    (parentDest : Vertex) (parentWasResurrected nameChanged metaChanged : Bool)
    (new_meta : InodeMetadata) (st : CMEState) (gp : Edge) : CMEState :=
  let grandparentChanged := decide (parent_pos ≠ gp.dest.toOption)
  let gpResEdge : NewEdge :=
    ⟨gp.flag.minusParent, folderBlockF, gp.dest.toOption, parentDest.toOption,
      some gp.introducedBy⟩
  let parentAliveEdge : NewEdge :=
    ⟨parentEdge.flag.minusParent, folderBlockF, parentEdge.dest.toOption,
      current_pos.inodeVertex.toOption, some parentEdge.introducedBy⟩
  let gpDelEdge : NewEdge :=
    ⟨parentEdge.flag.minusParent, folderBlockDeletedF, gp.dest.toOption,
      parentDest.toOption, some gp.introducedBy⟩
  if gp.flag.deleted then
    if !grandparentChanged && !nameChanged && !metaChanged then
      let m := st.moved
      let m := { m with resurrect := m.resurrect ++ [gpResEdge] }
      let m :=
        if !parentWasResurrected && !parentEdge.flag.pseudo then
          { m with alive := m.alive ++ [parentAliveEdge] }
        else m
      { st with moved := { m with need_new_name := false } }
    else
      { st with del_del := pushEntry st.del_del (gp.dest, parentDest) (some gp.introducedBy) }
  else if grandparentChanged || nameChanged || (metaChanged && cfgUnix)
      || !st.isFirstParent then
    let m := st.moved
    let m := { m with edges := m.edges ++ [gpDelEdge] }
    let m :=
      if !parentWasResurrected && !parentEdge.flag.pseudo then
        { m with alive := m.alive ++ [parentAliveEdge] }
      else m
    { st with moved := m }
  else
    { st with
      lastAliveMeta := some new_meta,
      aliveM := pushEntry st.aliveM (gp.dest, parentDest) (some gp.introducedBy),
      moved := { st.moved with need_new_name := false } }

/-- Wrapper of `cmeGrandA` handling the loop's early `continue` and the
trailing is_first_parent update (record.rs lines 1167-1169). -/
def cmeGrand (parent_pos : Pos) (current_pos : CPos) (parentEdge : Edge)
    (parentDest : Vertex) (parentWasResurrected nameChanged metaChanged : Bool)
    (new_meta : InodeMetadata) (st : CMEState) (gp : Edge) : CMEState :=
  if !(EdgeFlags.containsF gp.flag folderParentF) || gp.flag.pseudo then st
  else
    let st1 := cmeGrandA parent_pos current_pos parentEdge parentDest
      parentWasResurrected nameChanged metaChanged new_meta st gp
    if !gp.flag.deleted then { st1 with isFirstParent := false } else st1

/-- Body of the parent loop of collect_moved_edges (record.rs lines
1018-1171) for one parent edge: the resurrect/alive bookkeeping of the
parent edge itself, the metadata fetch of the name vertex, and the fold over
the grandparent edges.  The `cfg!(windows)` override of `meta_changed` is
kept behind the `cfgWindows` constant. -/
def cmeParent (g : Graph) (parent_pos : Pos) (current_pos : CPos)
    (new_meta : InodeMetadata) (name : String) (st : CMEState) (parent : Edge) : CMEState :=
  if !(EdgeFlags.containsF parent.flag folderParentF) then st
  else
    let parentResEdge : NewEdge :=
      ⟨parent.flag.minusParent, folderBlockF, parent.dest.toOption,
        current_pos.inodeVertex.toOption, some parent.introducedBy⟩
    let stPwr : CMEState × Bool :=
      if !parent.flag.pseudo then
        if parent.flag.deleted then
          ({ st with
              moved := { st.moved with resurrect := st.moved.resurrect ++ [parentResEdge] },
              aliveM := pushEntry st.aliveM (parent.dest, current_pos.inodeVertex) none },
            true)
        else
          ({ st with aliveM := pushEntry st.aliveM (parent.dest, current_pos.inodeVertex) (some parent.introducedBy) },
            false)
      else (st, false)
    let parentDest := g.blockEnd parent.dest
    let fm := g.fileMeta parentDest
    let nameChanged := decide (fm.2.1 ≠ name)
    let metaChanged0 := decide (new_meta ≠ fm.1)
    let metaChanged :=
      if cfgWindows && !metaChanged0 then
        match stPwr.1.lastAliveMeta with
        | some m => decide (new_meta ≠ m)
        | none => metaChanged0
      else metaChanged0
    (iterAdjacent g parentDest folderParentF allF).foldl
      (cmeGrand parent_pos current_pos parent parentDest stPwr.2 nameChanged metaChanged new_meta)
      stPwr.1

/-- The `del_del` cleanup loop of collect_moved_edges (record.rs lines
1173-1187): for every pair with more than one introducer, one
DELETED-to-DELETED rewrite per non-trivial introducer. -/
def dddFlush (dd : List ((CPos × Vertex) × List (Option Nat))) : List NewEdge :=
  dd.foldl (fun acc p =>
    if 1 < p.2.length then
      acc ++ p.2.foldl (fun acc2 i =>
        match i with
        | some _ => acc2 ++
            [(⟨folderBlockDeletedF, folderBlockDeletedF, p.1.1.toOption, p.1.2.toOption,
              i⟩ : NewEdge)]
        | none => acc2) []
    else acc) []

/-- The `alive` cleanup loop of collect_moved_edges (record.rs lines
1189-1203): reassertions when a pair has several introducers or any
resurrection happened. -/
def aliveFlush (am : List ((CPos × Vertex) × List (Option Nat)))
    (hasResurrect : Bool) : List NewEdge :=
  am.foldl (fun acc p =>
    if 1 < p.2.length || hasResurrect then
      acc ++ p.2.foldl (fun acc2 i =>
        match i with
        | some _ => acc2 ++
            [(⟨folderBlockF, folderBlockF, p.1.1.toOption, p.1.2.toOption, i⟩ : NewEdge)]
        | none => acc2) []
    else acc) []

/-- Translation of collect_moved_edges (record.rs lines 994-1206). -/
def collectMovedEdges (g : Graph) (parent_pos : Pos) (current_pos : CPos)
    (new_meta : InodeMetadata) (name : String) : MovedEdges :=
  let st0 : CMEState := ⟨⟨[], [], [], true⟩, [], [], none, true⟩
  let st := (iterAdjacent g current_pos.inodeVertex folderParentF allF).foldl
    (cmeParent g parent_pos current_pos new_meta name) st0
  let m1 := { st.moved with edges := st.moved.edges ++ dddFlush st.del_del }
  { m1 with alive := m1.alive ++ aliveFlush st.aliveM (!m1.resurrect.isEmpty) }

/- ==============  record.rs : record_moved_file (C6)  ============== -/

/-- Translation of Recorded::record_moved_file (record.rs lines 901-983).
`mw` is the external FileMetadata::write serializer (modelled from the spec:
fixed header, basename bytes, optional encoding tag); `fPath` is the result
of the external `fs::find_path` used for the FileMove path. -/
def recordMovedFile (g : Graph) (mw : InodeMetadata → String → Option Nat → List Nat)
    (item : RecordItem) (vertex : CPos) (new_papa : Pos) (encoding : Option Nat)
    (fPath : String) (r : Recorded) : Recorded :=
  let meta_start := r.contents.length
  let c1 := r.contents ++ mw item.metadata item.basename encoding
  let meta_end := c1.length
  let moved := collectMovedEdges g new_papa vertex item.metadata item.basename
  let undelHunk : Hunk :=
    Hunk.fileUndel
      (Atom.edgeMap ⟨moved.resurrect ++ moved.alive ++
        (if moved.need_new_name then [] else moved.edges), item.v_papa⟩)
      none item.full_path encoding
  let actsEdges : List Hunk × List NewEdge :=
    if moved.resurrect.isEmpty then (r.actions, moved.edges)
    else
      (r.actions ++ [undelHunk], if moved.need_new_name then moved.edges else [])
  let moveHunk : Hunk :=
    Hunk.fileMove (Atom.edgeMap ⟨actsEdges.2, item.v_papa⟩)
      (Atom.newVertex ⟨[item.v_papa], [vertex.toOption], meta_start, meta_end,
        folderBlockF, item.v_papa⟩) fPath
  let solveHunk : Hunk :=
    Hunk.solveNameConflict (Atom.edgeMap ⟨actsEdges.2, item.v_papa⟩) item.full_path
  if actsEdges.2.isEmpty then
    { r with contents := c1.take meta_start, actions := actsEdges.1 }
  else if moved.need_new_name then
    { r with contents := c1, actions := actsEdges.1 ++ [moveHunk] }
  else
    { r with contents := c1.take meta_start, actions := actsEdges.1 ++ [solveHunk] }

/- ==============  record.rs : delete_inode_vertex, delete_file_edge (C8)  ============== -/

/-- The grandparent loop of delete_inode_vertex (record.rs lines 1340-1362):
one DELETED transition per non-PSEUDO PARENT grandparent edge. -/
def divGrandLoop (g : Graph) (parentDest : Vertex) (acc : List NewEdge) : List NewEdge :=
  (iterAdjacent g parentDest folderParentF allF).foldl (fun a gp =>
    if !gp.flag.parent || gp.flag.pseudo then a
    else a ++ [(⟨gp.flag.minusParent, folderBlockDeletedF, gp.dest.toOption,
      parentDest.toOption, some gp.introducedBy⟩ : NewEdge)]) acc

/-- One parent-edge step of delete_inode_vertex (record.rs lines 1316-1372):
capture the encoding on first use, delete every grandparent folder edge,
then the parent edge itself unless it is PSEUDO. -/
def divStep (g : Graph) (vertex : Vertex) (st : List NewEdge × Option (Option Nat))
    (parent : Edge) : List NewEdge × Option (Option Nat) :=
  if !parent.flag.parent then st
  else
    let parentDest := g.blockEnd parent.dest
    let enc :=
      match st.2 with
      | none => some (g.fileMeta parentDest).2.2
      | some e => some e
    let e1 := divGrandLoop g parentDest st.1
    let e2 :=
      if !parent.flag.pseudo then
        e1 ++ [(⟨parent.flag.minusParent, folderBlockDeletedF, parent.dest.toOption,
          vertex.toOption, some parent.introducedBy⟩ : NewEdge)]
      else e1
    (e2, enc)

/-- The edges and encoding computed by delete_inode_vertex before the final
push (record.rs lines 1313-1372). -/
def deleteInodeVertexEdges (g : Graph) (vertex : Vertex) :
    List NewEdge × Option (Option Nat) :=
  (iterAdjacent g vertex folderParentF allF).foldl (divStep g vertex) ([], none)

/-- Translation of Recorded::delete_inode_vertex (record.rs lines
1300-1386).  The `enc.unwrap()` is only reached when some parent edge
existed, hence when the encoding was captured; it is modelled with a
default. -/
def deleteInodeVertex (g : Graph) (vertex : Vertex) (inode : CPos) (path : String)
    (r : Recorded) : Recorded :=
  let es := deleteInodeVertexEdges g vertex
  if es.1.isEmpty then r
  else
    { r with actions := r.actions ++
        [Hunk.fileDel (Atom.edgeMap ⟨es.1, inode.toOption⟩) none path (es.2.getD none)] }

/-- The DELETED transitions delete_file_edge appends to the pending FileDel
hunk (record.rs lines 1405-1426): one per non-PSEUDO PARENT, non-DELETED
edge into the vertex. -/
def deleteFileEdgeEdges (g : Graph) (tov : Vertex) : List NewEdge :=
  (iterAdjacent g tov parentOnlyF allMinusDeletedF).foldl (fun acc p =>
    if p.flag.pseudo then acc
    else acc ++ [(⟨p.flag.minusParent, (p.flag.minusParent).withDeleted, p.dest.toOption,
      tov.toOption, some p.introducedBy⟩ : NewEdge)]) []

/-- Translation of Recorded::delete_file_edge (record.rs lines 1388-1435):
splice the computed transitions into the contents EdgeMap of the last
action, which must be a FileDel (`unreachable!()` modelled as `none`).  When
the contents slot held a NewVertex, `contents.take()` leaves it empty and
the if-let does not restore it. -/
def deleteFileEdge (g : Graph) (tov : Vertex) (inode : CPos) (r : Recorded) :
    Option Recorded :=
  match r.actions.getLast? with
  | some (Hunk.fileDel del contents path enc) =>
    match contents with
    | some (Atom.newVertex _) =>
      some { r with actions := r.actions.dropLast ++ [Hunk.fileDel del none path enc] }
    | _ =>
      let e : EdgeMap :=
        match contents with
        | some (Atom.edgeMap e) => e
        | _ => ⟨[], inode.toOption⟩
      let e2 : EdgeMap := ⟨e.edges ++ deleteFileEdgeEdges g tov, e.inode⟩
      let c2 : Option Atom := if e2.edges.isEmpty then none else some (Atom.edgeMap e2)
      some { r with actions := r.actions.dropLast ++ [Hunk.fileDel del c2 path enc] }
  | _ => none

/- ==============  record.rs : record_existing_file, former parents (C1)  ============== -/

/-- The former-parents loop of record_existing_file (record.rs lines
764-820), with its early `break` on a DELETED parent edge.  The `is_deleted`
accumulator starts from the caller-supplied initial value; the source
initializes it with `let mut is_deleted = true;` (record.rs line 767) and
only ever assigns `true` to it. -/
def fpLoop (g : Graph) : List Edge → List Parent → Bool → List Parent × Bool
  | [], acc, isDel => (acc, isDel)
  | e :: rest, acc, isDel =>
    if !e.flag.parent then fpLoop g rest acc isDel
    else if e.flag.deleted then (acc, true)
    else
      let nameDest := g.blockEnd e.dest
      let fm := g.fileMeta nameDest
      let acc' :=
        match iterAdjacent g nameDest folderParentF allF with
        | [] => acc
        | vp :: _ =>
          if !vp.flag.deleted then acc ++ [⟨fm.2.1, fm.1, fm.2.2, vp.dest.toOption⟩]
          else acc
      fpLoop g rest acc' isDel

/-- Former parents and the `is_deleted` flag of record_existing_file for a
file at the given inode vertex. -/
def formerParents (g : Graph) (vertex : CPos) : List Parent × Bool :=
  fpLoop g (iterAdjacent g vertex.inodeVertex folderParentF allF) [] true

/-- The condition under which record_existing_file invokes record_moved_file
(record.rs lines 828-832): more than one former parent, or basename,
metadata or parent changed, or `is_deleted`.  `none` models the assertion
failure when no former parent was found. -/
def recordExistingFileShouldMove (g : Graph) (item : RecordItem) (vertex : CPos) :
    Option Bool :=
  let fp := formerParents g vertex
  match fp.1 with
  | [] => none
  | p :: _ =>
    some (decide (1 < fp.1.length) || decide (p.basename ≠ item.basename)
      || decide (p.metadata ≠ item.metadata) || decide (p.parent ≠ item.v_papa) || fp.2)

/- ==============  record.rs : add_file (C2)  ============== -/

/-- The working-copy view add_file consults: the file metadata, the decoded
byte contents and the detected encoding (`none` meaning binary). -/
structure WcFile where
  meta : InodeMetadata
  data : List Nat
  encoding : Option Nat
  deriving DecidableEq, Repr

/-- Translation of Recorded::add_file (record.rs lines 647-739): push the
inode zero bytes, decode regular-file contents, serialize the FileMetadata
(`mw` models the external FileMetadata::write), push the FileAdd hunk, then
insert the `InodeUpdate::Add` keyed by `self.actions.len()` evaluated after
the push.  Returns the new record and `Some(inode position)` iff the added
entry is a directory. -/
def addFile (mw : InodeMetadata → String → Option Nat → List Nat) (wc : WcFile)
    (item : RecordItem) (r : Recorded) : Recorded × Option Pos :=
  let contents0 := r.contents ++ [0]
  let inode_pos := contents0.length
  let contents1 := contents0 ++ [0]
  let fileStep :=
    if !wc.meta.isDir then
      let cstart := contents1.length
      let contents2 := contents1 ++ wc.data
      let cend := contents2.length
      let contentsAtom :=
        if cstart < cend then
          some (Atom.newVertex ⟨[⟨none, inode_pos⟩], [], cstart, cend,
            ⟨true, false, false, false, false⟩, ⟨none, inode_pos⟩⟩)
        else none
      (contents2 ++ [0], contentsAtom, wc.encoding,
        r.has_binary_files || wc.encoding.isNone,
        max r.largest_file (cend - cstart))
    else (contents1, none, none, r.has_binary_files, r.largest_file)
  let name_start := fileStep.1.length
  let contents4 := fileStep.1 ++ mw wc.meta item.basename fileStep.2.2.1
  let name_end := contents4.length
  let contents5 := contents4 ++ [0]
  let actions' := r.actions ++
    [Hunk.fileAdd
      (Atom.newVertex ⟨[item.v_papa], [], name_start, name_end, folderBlockF, item.v_papa⟩)
      (Atom.newVertex ⟨[⟨none, name_end⟩], [], inode_pos, inode_pos, folderBlockF,
        item.v_papa⟩)
      fileStep.2.1 item.full_path fileStep.2.2.1]
  (⟨contents5, actions',
      r.updatables ++ [(actions'.length, InodeUpdate.add inode_pos item.inode)],
      fileStep.2.2.2.2, fileStep.2.2.2.1, r.oldest_change, r.redundant⟩,
    if wc.meta.isDir then some ⟨none, inode_pos⟩ else none)

/- =====================  properties and concrete instances  ===================== -/

/-- Well-formedness every line built by `make_old_lines`/`make_new_lines`
satisfies: a line carrying `before_end_marker` never ends with a newline
(the construction only sets the bit when `l.last() != Some(&b'\n')`). -/
def lineWF (x : Line) : Prop :=
  x.before_end_marker = true → x.l.getLast? ≠ some 10

/-- Every edge of the list has a `previous` flag set without PARENT. -/
def prevOkL (l : List NewEdge) : Prop :=
  ∀ e ∈ l, e.previous.parent = false

/-- The invariant carried through collect_moved_edges: all three result
lists contain only edges whose `previous` excludes PARENT. -/
def stOk (st : CMEState) : Prop :=
  prevOkL st.moved.edges ∧ prevOkL st.moved.alive ∧ prevOkL st.moved.resurrect

/-- Sample metadata used by the concrete instances. -/
def m0 : InodeMetadata := ⟨false, 420⟩

/-- Inode vertex of the concrete file position (1, 10). -/
def vIV : Vertex := ⟨1, 10, 10⟩

/-- Name vertex of the concrete file. -/
def nV : Vertex := ⟨1, 20, 21⟩

/-- Live FOLDER|PARENT|BLOCK parent edge from the inode vertex to the name
vertex. -/
def pEdgeW : Edge := ⟨⟨true, true, true, false, false⟩, ⟨1, 21⟩, 5⟩

/-- Deleted FOLDER|PARENT|BLOCK grandparent edge to directory (2, 30). -/
def gEdgeDelW : Edge := ⟨⟨true, true, true, true, false⟩, ⟨2, 30⟩, 7⟩

/-- Live FOLDER|PARENT|BLOCK grandparent edge to directory (3, 40). -/
def gEdgeLiveW : Edge := ⟨⟨true, true, true, false, false⟩, ⟨3, 40⟩, 8⟩

/-- Live FOLDER|PARENT|BLOCK grandparent edge to directory (2, 30). -/
def gEdgeLiveSameW : Edge := ⟨⟨true, true, true, false, false⟩, ⟨2, 30⟩, 7⟩

/-- A content vertex with one live PARENT|BLOCK (non-FOLDER) edge into it. -/
def vDfe : Vertex := ⟨9, 50, 60⟩

/-- The live PARENT|BLOCK edge into `vDfe`. -/
def dfeEdgeW : Edge := ⟨⟨true, false, true, false, false⟩, ⟨4, 5⟩, 11⟩

/-- Concrete graph for the move algebra: the file at (1, 10) has a single
live parent name vertex `nV` whose grandparent edges are one deleted edge to
the new parent (2, 30) with a matching name and metadata, and one live edge
to a different directory (3, 40). -/
def gC6 : Graph :=
  ⟨fun v =>
      if v = vIV then [pEdgeW]
      else if v = nV then [gEdgeDelW, gEdgeLiveW]
      else if v = vDfe then [dfeEdgeW]
      else [],
    fun p => if p = ⟨1, 21⟩ then nV else ⟨p.change, p.pos, p.pos⟩,
    fun _ => (m0, "a", none)⟩

/-- Concrete graph for record_existing_file: one live parent whose single
grandparent edge is live and points at (2, 30); no edge carries DELETED. -/
def gC1 : Graph :=
  ⟨fun v =>
      if v = vIV then [pEdgeW]
      else if v = nV then [gEdgeLiveSameW]
      else [],
    fun p => if p = ⟨1, 21⟩ then nV else ⟨p.change, p.pos, p.pos⟩,
    fun _ => (m0, "a", none)⟩

/-- Graph with no edges at all. -/
def gEmpty : Graph :=
  ⟨fun _ => [], fun p => ⟨p.change, p.pos, p.pos⟩, fun _ => (m0, "a", none)⟩

/-- RecordItem whose basename, metadata and parent agree with what the
concrete graphs store: basename "a", metadata `m0`, parent (2, 30). -/
def itemC1 : RecordItem := ⟨⟨some 2, 30⟩, 7, "a", "a", m0⟩

/-- RecordItem for a fresh directory "d". -/
def itemC2 : RecordItem := ⟨⟨none, 0⟩, 7, "d", "d", ⟨true, 0⟩⟩

/-- Working-copy view of a directory. -/
def wcDir : WcFile := ⟨⟨true, 0⟩, [], none⟩

/-- A trivial stand-in for the FileMetadata serializer. -/
def mwTriv : InodeMetadata → String → Option Nat → List Nat := fun _ _ _ => [9, 9]

/-- Concrete old-buffer context: contents "x\nx\n>" whose trailing bytes
stand for a conflict end marker starting at offset 4, with a cyclic conflict
over bytes 0..2. -/
def dOldW : OldCtx := ⟨[120, 10, 120, 10, 62], 0, [(0, 2)], [(4, ConflictMarker.End)]⟩

/-- Spans of the external splitter over the old buffer: the line "x\n" and
the line "x" whose newline at offset 3 is eaten by the end marker. -/
def oldSpansW : List (Nat × Nat) := [(0, 2), (2, 1)]

/-- Concrete new buffer "x\nz\n". -/
def newBufW : List Nat := [120, 10, 122, 10]

/-- Spans of the splitter over the new buffer. -/
def newSpansW : List (Nat × Nat) := [(0, 2), (2, 2)]

/-- The old line "x\n" inside the cyclic conflict. -/
def lineC : Line := ⟨[120, 10], true, false, false, 0⟩

/-- The old line "x" truncated by the conflict end marker. -/
def lineA : Line := ⟨[120], false, true, false, 2⟩

/-- The new line "x\n". -/
def lineB : Line := ⟨[120, 10], false, false, false, 100⟩

/-- Two concrete chunks with contiguous pointers, for the byte arithmetic. -/
def chunksW : List Line :=
  [⟨[97, 98, 10], false, false, false, 0⟩, ⟨[99, 10], false, false, true, 3⟩]

/-- A single concrete chunk. -/
def chunk1W : List Line := [⟨[120], false, false, true, 0⟩]

/- =====================  helper lemmas  ===================== -/

/-- Folding a step function that preserves an invariant preserves it. -/
theorem foldlPreserve {α σ : Type _} (P : σ → Prop) (f : σ → α → σ)
    (hf : ∀ s x, P s → P (f s x)) :
    ∀ (l : List α) (s : σ), P s → P (l.foldl f s) := by
  intro l
  induction l with
  | nil => intro s hs; exact hs
  | cons x t ih => intro s hs; exact ih (f s x) (hf s x hs)

/-- The empty list satisfies prevOkL. -/
theorem prevOkL_nil : prevOkL [] := by
  intro e he
  cases he

/-- prevOkL is preserved by append. -/
theorem prevOkL_append {l1 l2 : List NewEdge} (h1 : prevOkL l1) (h2 : prevOkL l2) :
    prevOkL (l1 ++ l2) := by
  intro e he
  rcases List.mem_append.1 he with h | h
  · exact h1 e h
  · exact h2 e h

/-- prevOkL is preserved by pushing one edge whose previous set lacks
PARENT. -/
theorem prevOkL_push {l : List NewEdge} {e : NewEdge} (hl : prevOkL l)
    (he : e.previous.parent = false) : prevOkL (l ++ [e]) := by
  refine prevOkL_append hl ?_
  intro x hx
  rw [List.mem_singleton] at hx
  rw [hx]
  exact he

/-- Folding push-back onto an accumulator appends. -/
theorem pushAll_eq (acc ts : List α) :
    ts.foldl (fun q t => q ++ [t]) acc = acc ++ ts := by
  induction ts generalizing acc with
  | nil => simp
  | cons t ts ih => simp [List.foldl_cons, ih]

/-- Draining pop-front preserves the queue order. -/
theorem drainOrder_eq (l : List α) : drainOrder l = l := by
  induction l with
  | nil => rfl
  | cons t q ih => simp [drainOrder, ih]

/-- The oldest-change merge is associative. -/
theorem oldMerge_assoc (a b c : Nat) :
    oldMerge (oldMerge a b) c = oldMerge a (oldMerge b c) := by
  unfold oldMerge
  split_ifs <;> omega

/-- Zero is a right identity of the oldest-change merge. -/
theorem oldMerge_zero (a : Nat) : oldMerge a 0 = a := by
  unfold oldMerge
  split_ifs <;> omega

/-- minNonzero unfolds through the merge on a cons cell. -/
theorem minNonzero_cons (x : Nat) (l : List Nat) :
    minNonzero (x :: l) = oldMerge x (minNonzero l) := by
  show (if x = 0 then minNonzero l
        else if minNonzero l = 0 then x else min x (minNonzero l))
      = oldMerge x (minNonzero l)
  unfold oldMerge
  by_cases hx : x = 0
  · rw [if_pos hx, if_pos (Or.inl hx)]
  · rw [if_neg hx]
    by_cases hm : minNonzero l = 0
    · rw [if_pos hm, hm, if_neg (by omega)]
    · rw [if_neg hm]
      rcases Nat.lt_or_ge (minNonzero l) x with h | h
      · rw [if_pos (Or.inr ⟨Nat.pos_of_ne_zero hm, h⟩),
          Nat.min_eq_right (Nat.le_of_lt h)]
      · rw [if_neg (by omega), Nat.min_eq_left h]

/-- The is_deleted accumulator of the former-parents loop never leaves
`true`. -/
theorem fpLoop_snd_true (g : Graph) :
    ∀ (l : List Edge) (acc : List Parent), (fpLoop g l acc true).2 = true := by
  intro l
  induction l with
  | nil => intro acc; rfl
  | cons e rest ih =>
    intro acc
    unfold fpLoop
    split
    · exact ih acc
    · split
      · rfl
      · exact ih _

/- =====================  claim C1  ===================== -/

/-- C1: record_existing_file is claimed to compute `is_deleted` true iff
some incoming PARENT edge carries DELETED and to invoke record_moved_file
iff one of the five move conditions holds.  The source initializes
`let mut is_deleted = true` (record.rs line 767) and only ever assigns
`true`, so `is_deleted` is the constant true: on the concrete graph `gC1`,
where every incoming FOLDER|PARENT edge of the inode vertex is live and the
single former parent matches the item's basename, metadata and parent,
the flag is still true and the move algebra is still invoked. -/
theorem C1_is_deleted_constant_true :
    (∀ (g : Graph) (v : CPos), (formerParents g v).2 = true) ∧
    ((iterAdjacent gC1 (CPos.inodeVertex ⟨1, 10⟩) folderParentF allF).all
      (fun e => !e.flag.deleted) = true) ∧
    (recordExistingFileShouldMove gC1 itemC1 ⟨1, 10⟩ = some true) := by
  refine ⟨fun g v => fpLoop_snd_true g _ _, by decide, by decide⟩

/- =====================  claim C2  ===================== -/

/-- C2 counterexample: recording a single directory addition into an empty
record yields `updatables = [(1, Add)]`, so `updatables[0]` does not hold
the Add entry as the claim states. -/
theorem C2_counterexample :
    ((addFile mwTriv wcDir itemC2 emptyRecorded).1.updatables.lookup 0 = none) ∧
    ((addFile mwTriv wcDir itemC2 emptyRecorded).1.updatables
      = [(1, InodeUpdate.add 1 7)]) := by
  constructor <;> decide

/-- C2 (amended): add_file always appends exactly one FileAdd hunk, and the
`InodeUpdate::Add` entry is keyed by `actions.len()` evaluated after the
push, i.e. by the index of the FileAdd hunk plus one; the recorded position
is the inode position `contents.len() + 1` at entry. -/
theorem C2_add_file_updatable_key
    (mw : InodeMetadata → String → Option Nat → List Nat) (wc : WcFile)
    (item : RecordItem) (r : Recorded) :
    ((addFile mw wc item r).1.actions.length = r.actions.length + 1) ∧
    (((addFile mw wc item r).1.actions.drop r.actions.length).all isFileAddB = true) ∧
    ((addFile mw wc item r).1.updatables = r.updatables ++
      [(r.actions.length + 1, InodeUpdate.add (r.contents.length + 1) item.inode)]) := by
  refine ⟨?_, ?_, ?_⟩ <;>
    simp [addFile, List.drop_left, isFileAddB, List.length_append]

/- =====================  claim C5  ===================== -/

/-- C5 counterexample: on the non-empty chunk array `chunk1W` with
`i = chunks.len() = 1` and `n = 0`, bytes_len indexes `chunks[1]` out of
bounds (modelled `none`) instead of returning 0 as the claim states. -/
theorem C5_counterexample :
    bytesLen chunk1W 1 0 = none ∧ ¬ (bytesLen chunk1W 1 0 = some 0) := by
  constructor <;> decide

/-- C5 (amended): bytes_len returns the pointer distance when `i + n` is in
range; when `i + n` equals the length and line `i` exists it returns
`offset_of(last) + len_of(last) - offset_of(i)`; but when `n = 0` and
`i = chunks.len()` on a non-empty array it fails (the code indexes
`chunks[i]` out of bounds) rather than returning 0. -/
theorem C5_bytes_len_cases (chunks : List Line) (i n : Nat) :
    (∀ p q : Line, chunks.get? (i + n) = some p → chunks.get? i = some q →
      bytesLen chunks i n = some (p.ptr - q.ptr)) ∧
    (∀ p q : Line, i + n = chunks.length →
      chunks.get? (chunks.length - 1) = some p → chunks.get? i = some q →
      bytesLen chunks i n = some (p.ptr + p.l.length - q.ptr)) ∧
    (n = 0 → i = chunks.length → 0 < chunks.length → bytesLen chunks i n = none) := by
  refine ⟨?_, ?_, ?_⟩
  · intro p q hp hq
    unfold bytesLen
    rw [hp, hq]
  · intro p q hin hp hq
    have hi : i < chunks.length := (List.get?_eq_some.1 hq).1
    have hnone : chunks.get? (i + n) = none := by
      rw [hin]
      exact List.get?_eq_none.2 (le_refl _)
    unfold bytesLen
    rw [hnone]
    rw [if_pos (by omega)]
    rw [show i + n - 1 = chunks.length - 1 by omega, hp, hq]
  · intro hn hi hlen
    subst hn
    subst hi
    unfold bytesLen
    simp only [Nat.add_zero]
    have hnone : chunks.get? chunks.length = none :=
      List.get?_eq_none.2 (le_refl _)
    rw [hnone, if_pos hlen]
    rcases h : chunks.get? (chunks.length - 1) with _ | p <;> rfl

/-- C5 witness: the three amended clauses evaluated on the concrete chunk
arrays. -/
theorem C5_witness :
    bytesLen chunksW 0 1 = some 3 ∧ bytesLen chunksW 0 2 = some 5 ∧
    bytesLen chunksW 2 0 = none := by
  refine ⟨?_, ?_, ?_⟩
  · exact (C5_bytes_len_cases chunksW 0 1).1 ⟨[99, 10], false, false, true, 3⟩
      ⟨[97, 98, 10], false, false, false, 0⟩ (by decide) (by decide)
  · exact (C5_bytes_len_cases chunksW 0 2).2.1 ⟨[99, 10], false, false, true, 3⟩
      ⟨[97, 98, 10], false, false, false, 0⟩ (by decide) (by decide) (by decide)
  · exact (C5_bytes_len_cases chunksW 2 0).2.2 rfl (by decide) (by decide)

/- =====================  claim C9  ===================== -/

/-- C9 counterexample: a modification time one second before the UNIX epoch
makes `duration_since(UNIX_EPOCH)?` fail, and the error propagates (aborting
the session) instead of being treated as "modified". -/
theorem C9_counterexample :
    modifiedSinceLastCommit (some (-1)) 0 = Except.error () ∧
    ¬ (modifiedSinceLastCommit (some (-1)) 0 = Except.ok true) := by
  constructor
  · rfl
  · intro h
    simp [modifiedSinceLastCommit] at h

/-- C9 (amended): when the working copy cannot supply a modification time
the file is treated as modified; when it can and the time is at or after
the epoch, the comparison against the channel timestamp is returned; but
when the time precedes the epoch the SystemTime error propagates instead of
being treated as "modified". -/
theorem C9_modified_since_last_commit :
    (∀ c : Nat, modifiedSinceLastCommit none c = Except.ok true) ∧
    (∀ (t : Int) (c : Nat), 0 ≤ t →
      modifiedSinceLastCommit (some t) c = Except.ok (decide (c ≤ t.toNat))) ∧
    (∀ (t : Int) (c : Nat), t < 0 →
      modifiedSinceLastCommit (some t) c = Except.error ()) := by
  refine ⟨fun c => rfl, fun t c ht => ?_, fun t c ht => ?_⟩
  · show (if t < 0 then Except.error () else Except.ok (decide (c ≤ t.toNat)))
        = Except.ok (decide (c ≤ t.toNat))
    rw [if_neg (by omega)]
  · show (if t < 0 then Except.error () else Except.ok (decide (c ≤ t.toNat)))
        = Except.error ()
    rw [if_pos ht]

/-- C9 witness: the three clauses at concrete times 7 and -3 against channel
timestamp 5. -/
theorem C9_witness :
    modifiedSinceLastCommit none 5 = Except.ok true ∧
    modifiedSinceLastCommit (some 7) 5 = Except.ok (decide (5 ≤ (7 : Int).toNat)) ∧
    modifiedSinceLastCommit (some (-3)) 5 = Except.error () :=
  ⟨C9_modified_since_last_commit.1 5,
    C9_modified_since_last_commit.2.1 7 5 (by decide),
    C9_modified_since_last_commit.2.2 (-3) 5 (by decide)⟩

/- =====================  claim C10  ===================== -/

/-- C10: Builder::record ignores its `_n_workers` parameter: the spawn loop
is the literal `for t in 0..0`, so no worker thread is created for any
parameter value, the processing model is independent of the parameter, and
the drain loop after the walk processes the queued tuples front-first in
exactly the order the walk pushed them. -/
theorem C10_record_ignores_n_workers (n m : Nat) (tasks : List Nat) :
    spawnedWorkers n = [] ∧
    recordProcessModel n tasks = recordProcessModel m tasks ∧
    recordProcessModel n tasks = tasks := by
  refine ⟨rfl, rfl, ?_⟩
  show drainOrder (pushAll tasks) = tasks
  rw [show pushAll tasks = tasks from pushAll_eq [] tasks, drainOrder_eq]

/- =====================  claim C7  ===================== -/

/-- Folding finishStep over the remaining records computes, field by field,
the concatenations and merges of Builder::finish. -/
theorem finish_aux (rest : List Recorded) :
    ∀ r : Recorded,
      (rest.foldl finishStep r).contents = r.contents ∧
      (rest.foldl finishStep r).actions
        = r.actions ++ (rest.map (fun x => x.actions)).flatten ∧
      (rest.foldl finishStep r).updatables
        = r.updatables ++ shiftedUpdatables r.actions.length rest ∧
      (rest.foldl finishStep r).largest_file
        = max r.largest_file ((rest.map (fun x => x.largest_file)).foldr max 0) ∧
      (rest.foldl finishStep r).has_binary_files
        = (r.has_binary_files || (rest.map (fun x => x.has_binary_files)).any (fun b => b)) ∧
      (rest.foldl finishStep r).oldest_change
        = oldMerge r.oldest_change (minNonzero (rest.map (fun x => x.oldest_change))) ∧
      (rest.foldl finishStep r).redundant
        = r.redundant ++ (rest.map (fun x => x.redundant)).flatten := by
  induction rest with
  | nil =>
    intro r
    refine ⟨rfl, by simp, by simp [shiftedUpdatables], by simp, by simp,
      by simp [minNonzero, oldMerge_zero], by simp⟩
  | cons x rest ih =>
    intro r
    obtain ⟨h1, h2, h3, h4, h5, h6, h7⟩ := ih (finishStep r x)
    rw [List.foldl_cons]
    refine ⟨?_, ?_, ?_, ?_, ?_, ?_, ?_⟩
    · rw [h1]; rfl
    · rw [h2]; simp [finishStep, List.append_assoc]
    · rw [h3]
      simp [finishStep, shiftedUpdatables, List.append_assoc, List.length_append]
    · rw [h4]
      simp [finishStep, List.foldr_cons, Nat.max_assoc]
    · rw [h5]
      simp [finishStep, Bool.or_assoc]
    · rw [h6]
      have hx : (finishStep r x).oldest_change = oldMerge r.oldest_change x.oldest_change := rfl
      rw [hx, List.map_cons, minNonzero_cons, oldMerge_assoc]
    · rw [h7]; simp [finishStep, List.append_assoc]

/-- C7: Builder::finish concatenates worker records in creation order,
rebases each record's updatables keys by the cumulative actions length of
the earlier records, merges largest_file with max, has_binary_files with
logical or, oldest_change with the minimum over non-epoch values (epoch when
all are epoch), and concatenates the redundant-edge lists. -/
theorem C7_finish_concatenates (recs : List Recorded) :
    (finish recs).actions = (recs.map (fun x => x.actions)).flatten ∧
    (finish recs).updatables = shiftedUpdatables 0 recs ∧
    (finish recs).largest_file = (recs.map (fun x => x.largest_file)).foldr max 0 ∧
    (finish recs).has_binary_files = (recs.map (fun x => x.has_binary_files)).any (fun b => b) ∧
    (finish recs).oldest_change = minNonzero (recs.map (fun x => x.oldest_change)) ∧
    (finish recs).redundant = (recs.map (fun x => x.redundant)).flatten := by
  cases recs with
  | nil =>
    refine ⟨rfl, rfl, rfl, rfl, rfl, rfl⟩
  | cons r rest =>
    obtain ⟨h1, h2, h3, h4, h5, h6, h7⟩ := finish_aux rest r
    have hf : finish (r :: rest) = rest.foldl finishStep r := rfl
    rw [hf]
    refine ⟨?_, ?_, ?_, ?_, ?_, ?_⟩
    · rw [h2]; simp
    · rw [h3]
      simp [shiftedUpdatables]
    · rw [h4]; simp
    · rw [h5]; simp
    · rw [h6, List.map_cons, minNonzero_cons]
    · rw [h7]; simp

/- =====================  claim C3  ===================== -/

/-- C3 counterexample: a marker line and a trailing-newline line with
different cyclic bits.  The code's bridge branch ignores the cyclic bit and
deems them equal, while the claim requires the cyclic bits to match in every
case including case (c). -/
theorem C3_counterexample :
    lineEq ⟨[120], true, true, false, 7⟩ ⟨[120, 10], false, false, false, 42⟩ = true ∧
    ¬ lineEqSpecClaim ⟨[120], true, true, false, 7⟩ ⟨[120, 10], false, false, false, 42⟩ := by
  constructor
  · decide
  · intro h
    exact absurd h.1 (by decide)

/-- C3 (amended): Line equality holds exactly as follows.  When one side has
`before_end_marker` set, the other side is not the last line and its bytes
end with a newline, equality is exactly the byte comparison with that
newline dropped — the cyclic bits are not compared in this case; only in
the remaining case must the cyclic bits match, together with either the
pointers-and-length alias check or byte equality. -/
theorem C3_line_eq_characterization (a b : Line) :
    lineEq a b = true ↔
      ((a.before_end_marker = true ∧ b.last = false ∧ b.l.getLast? = some 10) ∧
        b.l.dropLast = a.l) ∨
      (¬(a.before_end_marker = true ∧ b.last = false ∧ b.l.getLast? = some 10) ∧
        (b.before_end_marker = true ∧ a.last = false ∧ a.l.getLast? = some 10) ∧
        a.l.dropLast = b.l) ∨
      (¬(a.before_end_marker = true ∧ b.last = false ∧ b.l.getLast? = some 10) ∧
        ¬(b.before_end_marker = true ∧ a.last = false ∧ a.l.getLast? = some 10) ∧
        a.cyclic = b.cyclic ∧
        ((a.ptr = b.ptr ∧ a.l.length = b.l.length) ∨ a.l = b.l)) := by
  have pab : (bridgeCond a b = true) ↔
      (a.before_end_marker = true ∧ b.last = false ∧ b.l.getLast? = some 10) := by
    simp [bridgeCond, and_assoc]
  have pba : (bridgeCond b a = true) ↔
      (b.before_end_marker = true ∧ a.last = false ∧ a.l.getLast? = some 10) := by
    simp [bridgeCond, and_assoc]
  unfold lineEq
  by_cases hab : bridgeCond a b = true
  · rw [if_pos hab]
    have h1 := pab.mp hab
    simp only [decide_eq_true_eq]
    constructor
    · intro h
      exact Or.inl ⟨h1, h⟩
    · intro h
      rcases h with ⟨_, h⟩ | ⟨hn, _, _⟩ | ⟨hn, _, _⟩
      · exact h
      · exact absurd h1 hn
      · exact absurd h1 hn
  · rw [if_neg hab]
    have hnab : ¬(a.before_end_marker = true ∧ b.last = false ∧ b.l.getLast? = some 10) :=
      fun h => hab (pab.mpr h)
    by_cases hba : bridgeCond b a = true
    · rw [if_pos hba]
      have h2 := pba.mp hba
      simp only [decide_eq_true_eq]
      constructor
      · intro h
        exact Or.inr (Or.inl ⟨hnab, h2, h⟩)
      · intro h
        rcases h with ⟨hc, _⟩ | ⟨_, _, h⟩ | ⟨_, hn, _⟩
        · exact absurd hc hnab
        · exact h
        · exact absurd h2 hn
    · have hnba : ¬(b.before_end_marker = true ∧ a.last = false ∧ a.l.getLast? = some 10) :=
        fun h => hba (pba.mpr h)
      rw [if_neg hba]
      simp only [Bool.and_eq_true, Bool.or_eq_true, decide_eq_true_eq]
      constructor
      · intro h
        exact Or.inr (Or.inr ⟨hnab, hnba, h.2, h.1⟩)
      · intro h
        rcases h with ⟨hc, _⟩ | ⟨_, hc, _⟩ | ⟨_, _, hcy, hor⟩
        · exact absurd hc hnab
        · exact absurd hc hnba
        · exact ⟨hor, hcy⟩

/- =====================  claim C4  ===================== -/

/-- Every line built by make_old_lines or make_new_lines is well formed:
its `before_end_marker` bit is only set when the line does not end with a
newline (the old-line construction guards the marker lookup with
`l.last() != Some(&b'\n')`, and new lines never carry the bit). -/
theorem drawn_wf {d : OldCtx} {spans : List (Nat × Nat)} {b : List Nat} {nbase : Nat}
    {nspans : List (Nat × Nat)} {x : Line}
    (hx : x ∈ drawnLines d spans b nbase nspans) : lineWF x := by
  unfold drawnLines at hx
  rcases List.mem_append.1 hx with h | h
  · obtain ⟨sp, _, rfl⟩ := List.mem_map.1 h
    intro hm
    by_cases hc : (sliceAt d.contents_a sp.1 sp.2).getLast? ≠ some 10
    · exact hc
    · exfalso
      have hfalse : (makeOldLine d sp).before_end_marker = false := by
        show (if (sliceAt d.contents_a sp.1 sp.2).getLast? ≠ some 10 then
            decide (d.marker.lookup (sp.1 + sp.2 + 1) = some ConflictMarker.End)
          else false) = false
        rw [if_neg hc]
      rw [hfalse] at hm
      exact Bool.false_ne_true hm
  · obtain ⟨sp, _, rfl⟩ := List.mem_map.1 h
    intro hm
    exact absurd hm (by simp [makeNewLine])

/-- Reflexivity of line equality on well-formed lines: the bridge branches
cannot fire, and the alias check succeeds. -/
theorem lineEq_refl_wf (a : Line) (ha : lineWF a) : lineEq a a = true := by
  have hfalse : bridgeCond a a = false := by
    by_cases h : a.before_end_marker = true
    · have h10 : a.l.getLast? ≠ some 10 := ha h
      simp [bridgeCond, h10]
    · have h' : a.before_end_marker = false := by
        revert h; cases a.before_end_marker <;> simp
      simp [bridgeCond, h']
  unfold lineEq
  rw [if_neg (by simp [hfalse]), if_neg (by simp [hfalse])]
  simp

/-- Symmetry of line equality on well-formed lines: the side whose bytes end
with a newline cannot itself be a marker line, so the mirrored bridge branch
fires with the same byte comparison, and the fall-through case is
symmetric. -/
theorem lineEq_symm_wf (a b : Line) (_ha : lineWF a) (hb : lineWF b)
    (h : lineEq a b = true) : lineEq b a = true := by
  unfold lineEq at h ⊢
  by_cases h1 : bridgeCond a b = true
  · rw [if_pos h1] at h
    have hend : b.l.getLast? = some 10 := by
      have h1' := h1
      simp [bridgeCond, and_assoc] at h1'
      exact h1'.2.2
    have hbm : bridgeCond b a = false := by
      have hbf : b.before_end_marker = false := by
        by_cases hx : b.before_end_marker = true
        · exact absurd hend (hb hx)
        · revert hx; cases b.before_end_marker <;> simp
      simp [bridgeCond, hbf]
    rw [if_neg (by simp [hbm]), if_pos h1]
    exact h
  · rw [if_neg h1] at h
    by_cases h2 : bridgeCond b a = true
    · rw [if_pos h2] at h
      rw [if_pos h2]
      exact h
    · rw [if_neg h2] at h
      rw [if_neg h2, if_neg h1]
      simp only [Bool.and_eq_true, Bool.or_eq_true, decide_eq_true_eq] at h ⊢
      obtain ⟨hor, hcy⟩ := h
      refine ⟨?_, hcy.symm⟩
      rcases hor with ⟨hp, hl⟩ | hl
      · exact Or.inl ⟨hp.symm, hl.symm⟩
      · exact Or.inr hl.symm

/-- C4 counterexample: transitivity fails on lines drawn from concrete
buffers.  The old line "x\n" (cyclic) equals the marker line "x", the marker
line equals the new line "x\n" (not cyclic), but the two "x\n" lines differ
because the bridge branches ignore the cyclic bit while the byte-comparison
branch checks it. -/
theorem C4_counterexample :
    lineC ∈ drawnLines dOldW oldSpansW newBufW 100 newSpansW ∧
    lineA ∈ drawnLines dOldW oldSpansW newBufW 100 newSpansW ∧
    lineB ∈ drawnLines dOldW oldSpansW newBufW 100 newSpansW ∧
    lineEq lineC lineA = true ∧ lineEq lineA lineB = true ∧
    lineEq lineC lineB = false := by
  refine ⟨by decide, by decide, by decide, by decide, by decide, by decide⟩

/-- C4 (amended): on lines drawn from the old and new buffers, line equality
is reflexive and symmetric (including through the `before_end_marker` /
trailing-newline bridge rule); it is not transitive, because the bridge rule
ignores the cyclic bit. -/
theorem C4_line_eq_refl_symm (d : OldCtx) (spans : List (Nat × Nat)) (b : List Nat)
    (nbase : Nat) (nspans : List (Nat × Nat)) (x y : Line)
    (hx : x ∈ drawnLines d spans b nbase nspans)
    (hy : y ∈ drawnLines d spans b nbase nspans) :
    lineEq x x = true ∧ (lineEq x y = true → lineEq y x = true) :=
  ⟨lineEq_refl_wf x (drawn_wf hx),
    fun h => lineEq_symm_wf x y (drawn_wf hx) (drawn_wf hy) h⟩

/-- C4 witness: reflexivity and symmetry evaluated on the concrete drawn
lines. -/
theorem C4_witness :
    lineEq lineC lineC = true ∧ (lineEq lineC lineA = true → lineEq lineA lineC = true) :=
  C4_line_eq_refl_symm dOldW oldSpansW newBufW 100 newSpansW lineC lineA
    (by decide) (by decide)

/- =====================  claim C8  ===================== -/

/-- The grandparent-loop body preserves the PARENT-free previous sets. -/
theorem cmeGrandA_ok (pp : Pos) (cp : CPos) (pe : Edge) (pd : Vertex)
    (pwr nc mc : Bool) (nm : InodeMetadata) (st : CMEState) (gp : Edge)
    (h : stOk st) : stOk (cmeGrandA pp cp pe pd pwr nc mc nm st gp) := by
  obtain ⟨h1, h2, h3⟩ := h
  unfold cmeGrandA
  dsimp only
  split_ifs <;>
    refine ⟨?_, ?_, ?_⟩ <;>
      first
        | assumption
        | exact prevOkL_push h1 rfl
        | exact prevOkL_push h2 rfl
        | exact prevOkL_push h3 rfl

/-- The wrapped grandparent step preserves the invariant: the trailing
is_first_parent update does not touch the moved lists. -/
theorem cmeGrand_ok (pp : Pos) (cp : CPos) (pe : Edge) (pd : Vertex)
    (pwr nc mc : Bool) (nm : InodeMetadata) (st : CMEState) (gp : Edge)
    (h : stOk st) : stOk (cmeGrand pp cp pe pd pwr nc mc nm st gp) := by
  unfold cmeGrand
  split
  · exact h
  · have h1 := cmeGrandA_ok pp cp pe pd pwr nc mc nm st gp h
    split
    · exact h1
    · exact h1

/-- The parent-loop body preserves the invariant. -/
theorem cmeParent_ok (g : Graph) (pp : Pos) (cp : CPos) (nm : InodeMetadata)
    (name : String) (st : CMEState) (parent : Edge)
    (h : stOk st) : stOk (cmeParent g pp cp nm name st parent) := by
  obtain ⟨h1, h2, h3⟩ := h
  unfold cmeParent
  split
  · exact ⟨h1, h2, h3⟩
  · refine foldlPreserve stOk _
      (fun s x hs => cmeGrand_ok _ _ _ _ _ _ _ _ s x hs) _ _ ?_
    dsimp only
    split_ifs <;>
      refine ⟨?_, ?_, ?_⟩ <;>
        first
          | assumption
          | exact prevOkL_push h3 rfl

/-- The del_del cleanup loop only produces PARENT-free previous sets. -/
theorem dddFlush_ok (dd : List ((CPos × Vertex) × List (Option Nat))) :
    prevOkL (dddFlush dd) := by
  unfold dddFlush
  refine foldlPreserve prevOkL _ ?_ dd [] prevOkL_nil
  intro acc p hacc
  split
  · refine prevOkL_append hacc ?_
    refine foldlPreserve prevOkL _ ?_ p.2 [] prevOkL_nil
    intro acc2 i h2
    cases i
    · exact h2
    · exact prevOkL_push h2 rfl
  · exact hacc

/-- The alive cleanup loop only produces PARENT-free previous sets. -/
theorem aliveFlush_ok (am : List ((CPos × Vertex) × List (Option Nat)))
    (hasResurrect : Bool) : prevOkL (aliveFlush am hasResurrect) := by
  unfold aliveFlush
  refine foldlPreserve prevOkL _ ?_ am [] prevOkL_nil
  intro acc p hacc
  split
  · refine prevOkL_append hacc ?_
    refine foldlPreserve prevOkL _ ?_ p.2 [] prevOkL_nil
    intro acc2 i h2
    cases i
    · exact h2
    · exact prevOkL_push h2 rfl
  · exact hacc

/-- Every edge list returned by collect_moved_edges has PARENT-free previous
sets. -/
theorem collectMovedEdges_ok (g : Graph) (pp : Pos) (cp : CPos)
    (nm : InodeMetadata) (name : String) :
    prevOkL (collectMovedEdges g pp cp nm name).edges ∧
    prevOkL (collectMovedEdges g pp cp nm name).alive ∧
    prevOkL (collectMovedEdges g pp cp nm name).resurrect := by
  have hst : stOk ((iterAdjacent g cp.inodeVertex folderParentF allF).foldl
      (cmeParent g pp cp nm name) ⟨⟨[], [], [], true⟩, [], [], none, true⟩) :=
    foldlPreserve stOk _ (fun s x hs => cmeParent_ok g pp cp nm name s x hs) _ _
      ⟨prevOkL_nil, prevOkL_nil, prevOkL_nil⟩
  obtain ⟨h1, h2, h3⟩ := hst
  exact ⟨prevOkL_append h1 (dddFlush_ok _), prevOkL_append h2 (aliveFlush_ok _ _), h3⟩

/-- The grandparent loop of delete_inode_vertex preserves the invariant. -/
theorem divGrandLoop_ok (g : Graph) (pd : Vertex) (acc : List NewEdge)
    (h : prevOkL acc) : prevOkL (divGrandLoop g pd acc) := by
  unfold divGrandLoop
  refine foldlPreserve prevOkL _ ?_ _ acc h
  intro a gp ha
  split
  · exact ha
  · exact prevOkL_push ha rfl

/-- One parent step of delete_inode_vertex preserves the invariant. -/
theorem divStep_ok (g : Graph) (v : Vertex) (st : List NewEdge × Option (Option Nat))
    (parent : Edge) (h : prevOkL st.1) : prevOkL (divStep g v st parent).1 := by
  unfold divStep
  split
  · exact h
  · dsimp only
    split
    · exact prevOkL_push (divGrandLoop_ok _ _ _ h) rfl
    · exact divGrandLoop_ok _ _ _ h

/-- The edges computed by delete_inode_vertex have PARENT-free previous
sets. -/
theorem deleteInodeVertexEdges_ok (g : Graph) (v : Vertex) :
    prevOkL (deleteInodeVertexEdges g v).1 := by
  unfold deleteInodeVertexEdges
  refine foldlPreserve
    (fun st : List NewEdge × Option (Option Nat) => prevOkL st.1) _ ?_ _ _ prevOkL_nil
  intro s parent hs
  exact divStep_ok g v s parent hs

/-- The edges computed by delete_file_edge have PARENT-free previous
sets. -/
theorem deleteFileEdgeEdges_ok (g : Graph) (v : Vertex) :
    prevOkL (deleteFileEdgeEdges g v) := by
  unfold deleteFileEdgeEdges
  refine foldlPreserve prevOkL _ ?_ _ _ prevOkL_nil
  intro acc p hacc
  split
  · exact hacc
  · exact prevOkL_push hacc rfl

/-- C8: every NewEdge produced by collect_moved_edges, delete_inode_vertex
or delete_file_edge has a previous flag set that does not contain PARENT:
each push site builds `previous` as some edge's flags minus PARENT, or as a
FOLDER|BLOCK(|DELETED) constant. -/
theorem C8_previous_never_contains_parent :
    (∀ (g : Graph) (pp : Pos) (cp : CPos) (nm : InodeMetadata) (name : String)
        (e : NewEdge),
      e ∈ (collectMovedEdges g pp cp nm name).edges
          ++ (collectMovedEdges g pp cp nm name).alive
          ++ (collectMovedEdges g pp cp nm name).resurrect →
      e.previous.parent = false) ∧
    (∀ (g : Graph) (v : Vertex) (e : NewEdge),
      e ∈ (deleteInodeVertexEdges g v).1 → e.previous.parent = false) ∧
    (∀ (g : Graph) (v : Vertex) (e : NewEdge),
      e ∈ deleteFileEdgeEdges g v → e.previous.parent = false) := by
  refine ⟨?_, ?_, ?_⟩
  · intro g pp cp nm name e he
    obtain ⟨h1, h2, h3⟩ := collectMovedEdges_ok g pp cp nm name
    exact prevOkL_append (prevOkL_append h1 h2) h3 e he
  · intro g v e he
    exact deleteInodeVertexEdges_ok g v e he
  · intro g v e he
    exact deleteFileEdgeEdges_ok g v e he

/-- C8 witness: three concrete edges produced on the concrete graph, one per
operation, with the memberships discharged by evaluation. -/
theorem C8_witness :
    (⟨folderBlockF, folderBlockDeletedF, ⟨some 3, 40⟩, ⟨some 1, 20, 21⟩,
      some 8⟩ : NewEdge).previous.parent = false ∧
    (⟨⟨true, true, false, true, false⟩, folderBlockDeletedF, ⟨some 2, 30⟩,
      ⟨some 1, 20, 21⟩, some 7⟩ : NewEdge).previous.parent = false ∧
    (⟨⟨true, false, false, false, false⟩, ⟨true, false, false, true, false⟩,
      ⟨some 4, 5⟩, ⟨some 9, 50, 60⟩, some 11⟩ : NewEdge).previous.parent = false :=
  ⟨C8_previous_never_contains_parent.1 gC6 ⟨some 2, 30⟩ ⟨1, 10⟩ m0 "a" _ (by decide),
    C8_previous_never_contains_parent.2.1 gC6 vIV _ (by decide),
    C8_previous_never_contains_parent.2.2 gC6 vDfe _ (by decide)⟩

/- =====================  claim C6  ===================== -/

/-- C6 counterexample: on the concrete graph `gC6`, collect_moved_edges
returns non-empty `resurrect` and non-empty `edges` with
`need_new_name = false`; the claim's clause then demands a SolveNameConflict
hunk carrying the edges, but record_moved_file drains the edges into the
FileUndel hunk and emits no SolveNameConflict at all. -/
theorem C6_counterexample :
    (¬ (collectMovedEdges gC6 ⟨some 2, 30⟩ ⟨1, 10⟩ m0 "a").edges = []) ∧
    ((collectMovedEdges gC6 ⟨some 2, 30⟩ ⟨1, 10⟩ m0 "a").need_new_name = false) ∧
    (¬ (collectMovedEdges gC6 ⟨some 2, 30⟩ ⟨1, 10⟩ m0 "a").resurrect = []) ∧
    ((recordMovedFile gC6 mwTriv itemC1 ⟨1, 10⟩ ⟨some 2, 30⟩ none "p"
        emptyRecorded).actions.any isSolveB = false) := by
  refine ⟨by decide, by decide, by decide, by decide⟩

/-- C6 (amended): record_moved_file dispatches on the MovedEdges result as
follows.  A FileUndel hunk is emitted iff `resurrect` is non-empty, and it
carries resurrect followed by alive, plus the edges set when
`need_new_name` is false (the edges are drained into the FileUndel in that
case).  A FileMove hunk pairing the edges with the NewVertex for the new
name is emitted iff `edges` is non-empty and `need_new_name` is true, and
only in that case is the speculative metadata kept in the contents buffer.
A SolveNameConflict carrying the edges is emitted iff `edges` is non-empty,
`need_new_name` is false and `resurrect` is empty: when a resurrection
happens the drained edges leave nothing for a SolveNameConflict.  In every
other case the metadata bytes are truncated and nothing further is
emitted. -/
theorem C6_record_moved_file_dispatch (g : Graph)
    (mw : InodeMetadata → String → Option Nat → List Nat) (item : RecordItem)
    (vertex : CPos) (new_papa : Pos) (enc : Option Nat) (fPath : String)
    (r : Recorded) :
    (((recordMovedFile g mw item vertex new_papa enc fPath r).actions.drop
        r.actions.length).any isFileUndelB
      = !(collectMovedEdges g new_papa vertex item.metadata
          item.basename).resurrect.isEmpty) ∧
    (((recordMovedFile g mw item vertex new_papa enc fPath r).actions.drop
        r.actions.length).any isFileMoveB
      = (!(collectMovedEdges g new_papa vertex item.metadata item.basename).edges.isEmpty
          && (collectMovedEdges g new_papa vertex item.metadata
              item.basename).need_new_name)) ∧
    (((recordMovedFile g mw item vertex new_papa enc fPath r).actions.drop
        r.actions.length).any isSolveB
      = (!(collectMovedEdges g new_papa vertex item.metadata item.basename).edges.isEmpty
          && !(collectMovedEdges g new_papa vertex item.metadata
              item.basename).need_new_name
          && (collectMovedEdges g new_papa vertex item.metadata
              item.basename).resurrect.isEmpty)) ∧
    ((recordMovedFile g mw item vertex new_papa enc fPath r).contents
      = if (!(collectMovedEdges g new_papa vertex item.metadata item.basename).edges.isEmpty
            && (collectMovedEdges g new_papa vertex item.metadata
                item.basename).need_new_name) = true
        then r.contents ++ mw item.metadata item.basename enc
        else r.contents) ∧
    ((collectMovedEdges g new_papa vertex item.metadata item.basename).resurrect.isEmpty
        = false →
      ((recordMovedFile g mw item vertex new_papa enc fPath r).actions.drop
          r.actions.length).head?
        = some (Hunk.fileUndel
            (Atom.edgeMap
              ⟨(collectMovedEdges g new_papa vertex item.metadata item.basename).resurrect
                ++ (collectMovedEdges g new_papa vertex item.metadata item.basename).alive
                ++ (if (collectMovedEdges g new_papa vertex item.metadata
                      item.basename).need_new_name then []
                    else (collectMovedEdges g new_papa vertex item.metadata
                      item.basename).edges),
                item.v_papa⟩)
            none item.full_path enc)) := by
  unfold recordMovedFile
  set M := collectMovedEdges g new_papa vertex item.metadata item.basename with hM
  dsimp only
  by_cases hR : M.resurrect.isEmpty = true <;>
    by_cases hE : M.edges.isEmpty = true <;>
      by_cases hN : M.need_new_name = true <;>
        simp [hR, hE, hN, Bool.not_eq_true, List.append_assoc, List.drop_left,
          List.take_left, isFileUndelB, isFileMoveB, isSolveB]

/-- C6 witness: the dispatch evaluated on the empty graph, where all four
result sets are empty and only the truncation happens. -/
theorem C6_witness :
    (((recordMovedFile gEmpty mwTriv itemC2 ⟨0, 0⟩ ⟨none, 0⟩ none "p"
        emptyRecorded).actions.drop emptyRecorded.actions.length).any isFileUndelB
      = !(collectMovedEdges gEmpty ⟨none, 0⟩ ⟨0, 0⟩ itemC2.metadata
          itemC2.basename).resurrect.isEmpty) ∧
    (((recordMovedFile gEmpty mwTriv itemC2 ⟨0, 0⟩ ⟨none, 0⟩ none "p"
        emptyRecorded).actions.drop emptyRecorded.actions.length).any isFileMoveB
      = (!(collectMovedEdges gEmpty ⟨none, 0⟩ ⟨0, 0⟩ itemC2.metadata
            itemC2.basename).edges.isEmpty
          && (collectMovedEdges gEmpty ⟨none, 0⟩ ⟨0, 0⟩ itemC2.metadata
              itemC2.basename).need_new_name)) ∧
    (((recordMovedFile gEmpty mwTriv itemC2 ⟨0, 0⟩ ⟨none, 0⟩ none "p"
        emptyRecorded).actions.drop emptyRecorded.actions.length).any isSolveB
      = (!(collectMovedEdges gEmpty ⟨none, 0⟩ ⟨0, 0⟩ itemC2.metadata
            itemC2.basename).edges.isEmpty
          && !(collectMovedEdges gEmpty ⟨none, 0⟩ ⟨0, 0⟩ itemC2.metadata
              itemC2.basename).need_new_name
          && (collectMovedEdges gEmpty ⟨none, 0⟩ ⟨0, 0⟩ itemC2.metadata
              itemC2.basename).resurrect.isEmpty)) ∧
    ((recordMovedFile gEmpty mwTriv itemC2 ⟨0, 0⟩ ⟨none, 0⟩ none "p"
        emptyRecorded).contents
      = if (!(collectMovedEdges gEmpty ⟨none, 0⟩ ⟨0, 0⟩ itemC2.metadata
              itemC2.basename).edges.isEmpty
            && (collectMovedEdges gEmpty ⟨none, 0⟩ ⟨0, 0⟩ itemC2.metadata
                itemC2.basename).need_new_name) = true
        then emptyRecorded.contents ++ mwTriv itemC2.metadata itemC2.basename none
        else emptyRecorded.contents) ∧
    ((collectMovedEdges gEmpty ⟨none, 0⟩ ⟨0, 0⟩ itemC2.metadata
          itemC2.basename).resurrect.isEmpty = false →
      ((recordMovedFile gEmpty mwTriv itemC2 ⟨0, 0⟩ ⟨none, 0⟩ none "p"
          emptyRecorded).actions.drop emptyRecorded.actions.length).head?
        = some (Hunk.fileUndel
            (Atom.edgeMap
              ⟨(collectMovedEdges gEmpty ⟨none, 0⟩ ⟨0, 0⟩ itemC2.metadata
                  itemC2.basename).resurrect
                ++ (collectMovedEdges gEmpty ⟨none, 0⟩ ⟨0, 0⟩ itemC2.metadata
                    itemC2.basename).alive
                ++ (if (collectMovedEdges gEmpty ⟨none, 0⟩ ⟨0, 0⟩ itemC2.metadata
                      itemC2.basename).need_new_name then []
                    else (collectMovedEdges gEmpty ⟨none, 0⟩ ⟨0, 0⟩ itemC2.metadata
                      itemC2.basename).edges),
                itemC2.v_papa⟩)
            none itemC2.full_path none)) :=
  C6_record_moved_file_dispatch gEmpty mwTriv itemC2 ⟨0, 0⟩ ⟨none, 0⟩ none "p"
    emptyRecorded

end Pijul
